import Mathlib

/-!
Shallow embedding of the recipe server's conversational edit orchestrator
(`apps/server/src/agent.ts`), its ingredient changeset engine and the
version-commit handler (`apps/server/src/index.ts`), over the data model of
`packages/recipe-core/src/index.ts`.  The text-generation model is treated as
a nondeterministic oracle: a turn is abstracted by the sequence of tool
executions (and asynchronous occurrences such as the timeout firing) that it
caused, and the orchestrator's state updates and event emissions are embedded
as pure functions of that sequence.
-/

namespace RecipeApp

/-- `IngredientSchema` from `packages/recipe-core/src/index.ts`:
`{name, quantity?, unit?, preparation?}`.  JS numbers are modelled as `Int`. -/
structure Ingredient where
  name : String
  quantity : Option Int := none
  unit : Option String := none
  preparation : Option String := none
deriving DecidableEq, Repr

/-- `RecipeSchema` from `packages/recipe-core/src/index.ts`. -/
structure Recipe where
  title : String
  servings : Option Int := none
  prepTime : Option Int := none
  cookTime : Option Int := none
  ingredients : List Ingredient := []
  steps : List String := []
  tags : Option (List String) := none
  cuisine : Option String := none
  category : Option String := none
  sourceUrl : String
  scrapedAt : String
deriving DecidableEq, Repr

/-- `IngredientDiff` tagged union from `packages/recipe-core/src/index.ts`. -/
inductive IngredientDiff where
  | added (ingredient : Ingredient)
  | removed (ingredient : Ingredient)
  | modified (before after : Ingredient)
deriving DecidableEq, Repr

/-- One step of JS `Map` insertion: if the key is already present, the value
is overwritten in place (the key keeps its original iteration position);
otherwise the pair is appended at the end. -/
def insertLast (m : List (String × Ingredient)) (k : String) (v : Ingredient) :
    List (String × Ingredient) :=
  match m with
  | [] => [(k, v)]
  | (k1, v1) :: rest =>
      if k1 = k then (k, v) :: rest else (k1, v1) :: insertLast rest k v

/-- `String.prototype.toLowerCase`, embedded character-wise (extensionally
the same function as `String.toLower`, but kernel-computable). -/
def lowerString (s : String) : String :=
  String.mk (s.data.map Char.toLower)

/-- `new Map(list.map((ing) => [ing.name.toLowerCase(), ing]))`: an insertion
ordered map keyed by lower-cased ingredient name, later duplicates
overwriting earlier ones. -/
def toMap (l : List Ingredient) : List (String × Ingredient) :=
  l.foldl (fun m ing => insertLast m (lowerString ing.name) ing) []

/-- `Map.prototype.get`: first (and, for maps built by `insertLast`, only)
entry with the given key. -/
def mapGet (m : List (String × Ingredient)) (k : String) : Option Ingredient :=
  match m with
  | [] => none
  | (k1, v) :: rest => if k1 = k then some v else mapGet rest k

/-- `computeChangeset` from `apps/server/src/index.ts` lines 54-75: two
passes over the two name-keyed maps, pushing `removed`/`modified` diffs in
original-map iteration order, then `added` diffs in edited-map iteration
order.  `JSON.stringify` inequality of two schema-validated ingredients is
structural inequality of the four fields. -/
def computeChangeset (original edited : List Ingredient) : List IngredientDiff :=
  let originalMap := toMap original
  let editedMap := toMap edited
  let diffs1 := originalMap.foldl
    (fun diffs p =>
      match mapGet editedMap p.1 with
      | none => diffs ++ [IngredientDiff.removed p.2]
      | some ed => if p.2 ≠ ed then diffs ++ [IngredientDiff.modified p.2 ed] else diffs)
    []
  editedMap.foldl
    (fun diffs p =>
      match mapGet originalMap p.1 with
      | none => diffs ++ [IngredientDiff.added p.2]
      | some _ => diffs)
    diffs1

/-- The changeset as the specification describes it: for every key of the
original map, a `removed` diff when the key is absent from the edited map and
a `modified` diff when both sides hold structurally different ingredients,
in original-map iteration order; followed by an `added` diff for every key
only in the edited map, in edited-map iteration order. -/
def changesetDescribed (original edited : List Ingredient) : List IngredientDiff :=
  let originalMap := toMap original
  let editedMap := toMap edited
  originalMap.filterMap
    (fun p =>
      match mapGet editedMap p.1 with
      | none => some (IngredientDiff.removed p.2)
      | some ed => if p.2 ≠ ed then some (IngredientDiff.modified p.2 ed) else none)
  ++ editedMap.filterMap
    (fun p =>
      match mapGet originalMap p.1 with
      | none => some (IngredientDiff.added p.2)
      | some _ => none)

/-- `EditAgentEvent` union from `apps/server/src/agent.ts` lines 22-26. -/
inductive EditAgentEvent where
  | progress (label : String)
  | clarification (question : String)
  | result (recipe : Recipe)
  | error (message : String)
deriving DecidableEq, Repr

/-- `true` exactly on the terminal event shapes (clarification, result,
error); `progress` is the only non-terminal event. -/
def isTerminal : EditAgentEvent → Bool
  | .progress _ => false
  | _ => true

/-- `true` exactly on `result` events. -/
def isResult : EditAgentEvent → Bool
  | .result _ => true
  | _ => false

/-- The `update_metadata` input schema (`agent.ts` lines 117-125): seven
independently optional fields; an absent field is `none`. -/
structure MetadataFields where
  title : Option String := none
  servings : Option Int := none
  prepTime : Option Int := none
  cookTime : Option Int := none
  cuisine : Option String := none
  category : Option String := none
  tags : Option (List String) := none
deriving DecidableEq, Repr

/-- `AIRecipeSchema = RecipeSchema.omit({scrapedAt, sourceUrl})`
(`agent.ts` line 15): what the model supplies to `review_recipe`. -/
structure AIRecipe where
  title : String
  servings : Option Int := none
  prepTime : Option Int := none
  cookTime : Option Int := none
  ingredients : List Ingredient := []
  steps : List String := []
  tags : Option (List String) := none
  cuisine : Option String := none
  category : Option String := none
deriving DecidableEq, Repr

/-- A schema-validated invocation of one of the five registered tools
(`agent.ts` lines 90-159). -/
inductive ToolCall where
  | update_ingredients (ingredients : List Ingredient)
  | update_steps (steps : List String)
  | update_metadata (fields : MetadataFields)
  | ask_clarification (question : String)
  | review_recipe (recipe : AIRecipe)
deriving DecidableEq, Repr

/-- The string reason passed to `abortController.abort` (`agent.ts` lines 64
and 142). -/
inductive AbortReason where
  | timeout
  | clarification
deriving DecidableEq, Repr

/-- One observable occurrence during a turn: a tool execution, the 10-second
timer firing (`agent.ts` line 64), or the model call failing for any other
reason (swallowed by the empty `catch` at lines 161-163, so a no-op on the
turn's state).  A turn that merely stops (model stop or the 5-step cap) adds
no occurrence. -/
inductive TurnAction where
  | call (t : ToolCall)
  | timeoutFires
  | modelError
deriving DecidableEq, Repr

/-- The mutable state of one `agentEditRecipe` turn (`agent.ts` lines 63-68)
together with the progress events emitted so far. -/
structure TurnState where
  clarificationQuestion : Option String
  finalRecipe : Recipe
  recipeMutated : Bool
  abortReason : Option AbortReason
  events : List EditAgentEvent
deriving DecidableEq, Repr

/-- Keep the supplied value when present, the old one otherwise: the effect
of spreading one `Object.entries`-filtered defined field. -/
def orKeep {α : Type} (new old : Option α) : Option α :=
  match new with
  | some v => some v
  | none => old

/-- `{...finalRecipe, ...updates}` where `updates` keeps only the defined
fields of the `update_metadata` input (`agent.ts` lines 126-128). -/
def applyMetadata (r : Recipe) (f : MetadataFields) : Recipe :=
  { r with
    title := f.title.getD r.title
    servings := orKeep f.servings r.servings
    prepTime := orKeep f.prepTime r.prepTime
    cookTime := orKeep f.cookTime r.cookTime
    cuisine := orKeep f.cuisine r.cuisine
    category := orKeep f.category r.category
    tags := orKeep f.tags r.tags }

/-- `{...recipe, sourceUrl: currentRecipe.sourceUrl, scrapedAt:
currentRecipe.scrapedAt}` (`agent.ts` line 153). -/
def attachProvenance (current : Recipe) (r : AIRecipe) : Recipe :=
  { title := r.title
    servings := r.servings
    prepTime := r.prepTime
    cookTime := r.cookTime
    ingredients := r.ingredients
    steps := r.steps
    tags := r.tags
    cuisine := r.cuisine
    category := r.category
    sourceUrl := current.sourceUrl
    scrapedAt := current.scrapedAt }

/-- `AbortController.abort(reason)` is a no-op when the signal is already
aborted: the first reason wins. -/
def firstAbort (cur : Option AbortReason) (new : AbortReason) : Option AbortReason :=
  match cur with
  | some a => some a
  | none => some new

/-- The `execute` body of each registered tool (`agent.ts` lines 96-157):
the state update and the single progress event it emits, if any. -/
def execTool (current : Recipe) (s : TurnState) : ToolCall → TurnState
  | .update_ingredients ings =>
      { s with
        finalRecipe := { s.finalRecipe with ingredients := ings }
        recipeMutated := true
        events := s.events ++ [.progress "Updating ingredients..."] }
  | .update_steps st =>
      { s with
        finalRecipe := { s.finalRecipe with steps := st }
        recipeMutated := true
        events := s.events ++ [.progress "Updating steps..."] }
  | .update_metadata f =>
      { s with
        finalRecipe := applyMetadata s.finalRecipe f
        recipeMutated := true
        events := s.events ++ [.progress "Updating recipe details..."] }
  | .ask_clarification q =>
      { s with
        clarificationQuestion := some q
        abortReason := firstAbort s.abortReason .clarification }
  | .review_recipe r =>
      { s with
        finalRecipe := attachProvenance current r
        recipeMutated := true
        events := s.events ++ [.progress "Reviewing consistency..."] }

/-- One occurrence applied to the turn state. -/
def execAction (current : Recipe) (s : TurnState) : TurnAction → TurnState
  | .call t => execTool current s t
  | .timeoutFires => { s with abortReason := firstAbort s.abortReason .timeout }
  | .modelError => s

/-- The turn state after a sequence of occurrences, in order. -/
def runActions (current : Recipe) (s : TurnState) : List TurnAction → TurnState
  | [] => s
  | a :: rest => runActions current (execAction current s a) rest

/-- The state at turn start (`agent.ts` lines 66-68): no clarification, the
draft is a copy of the caller's recipe, nothing mutated, signal unarmed. -/
def initState (current : Recipe) : TurnState :=
  { clarificationQuestion := none
    finalRecipe := current
    recipeMutated := false
    abortReason := none
    events := [] }

def timeoutMessage : String := "Edit timed out. Please try a simpler request."

def unproductiveMessage : String := "Agent could not process this request. Please try rephrasing."

/-- The three `else` branches of the outcome classifier (`agent.ts` lines
169-175), reached when the `if (clarificationQuestion)` check fails:
timeout-abort first, then the unproductive-turn error, else the mutated
draft as a result. -/
def classifyNoClarification (s : TurnState) : EditAgentEvent :=
  if s.abortReason = some AbortReason.timeout then .error timeoutMessage
  else if s.recipeMutated = false then .error unproductiveMessage
  else .result s.finalRecipe

/-- The outcome classifier (`agent.ts` lines 167-175).  The JS guard
`if (clarificationQuestion)` is a truthiness check: it falls through not
only when the question is `null` but also when it is the empty string, so a
recorded `""` question is classified like no question at all. -/
def classify (s : TurnState) : EditAgentEvent :=
  match s.clarificationQuestion with
  | some q => if q = "" then classifyNoClarification s else .clarification q
  | none => classifyNoClarification s

/-- JS truthiness of the nullable question string: `null` and `""` are
falsy. -/
def questionTruthy : Option String → Bool
  | none => false
  | some q => q ≠ ""

/-- `agentEditRecipe` (`agent.ts` lines 55-176), abstracted over the model's
behaviour: the full ordered event sequence delivered to `onEvent` during a
turn whose occurrences were `actions` — the progress events in tool order,
then the one terminal event. -/
def agentEditRecipe (current : Recipe) (actions : List TurnAction) :
    List EditAgentEvent :=
  let s := runActions current (initState current) actions
  s.events ++ [classify s]

/-- A stored recipe version row (`recipe_versions` table, inserted by
`handleCommitVersion` in `apps/server/src/index.ts` lines 289-301). -/
structure VersionRow where
  id : String
  recipeId : String
  recipe : Recipe
  editPrompt : Option String
  name : Option String
  changeset : Option (List IngredientDiff)
  createdAt : String
deriving DecidableEq, Repr

/-- The slice of the database that `handleCommitVersion` touches: each
recipe's `default_version_id` pointer and the version rows. -/
structure Db where
  recipes : List (String × Option String)
  versions : List VersionRow
deriving DecidableEq, Repr

/-- `SELECT id FROM recipes WHERE id = ?` non-emptiness. -/
def hasRecipe (db : Db) (id : String) : Bool :=
  db.recipes.any (fun p => p.1 = id)

/-- The `default_version_id` stored for a recipe id, when the recipe row
exists. -/
def defaultVersionOf (db : Db) (id : String) : Option (Option String) :=
  (db.recipes.find? (fun p => p.1 = id)).map Prod.snd

/-- Response of the commit handler, restricted to typed bodies. -/
inductive CommitResult where
  | notFound
  | committed (versionId : String)
deriving DecidableEq, Repr

/-- `handleCommitVersion` (`apps/server/src/index.ts` lines 256-305) on a
schema-valid body.  `versionId`/`createdAt` abstract `newId()`/`now()`;
`nameCall` abstracts the outcome of the `generateVersionName` model call,
consulted only when a non-empty `editPrompt` and an `originalRecipe` are both
supplied (JS truthiness), its failure degrading to a `none` name.  Returns
the response and the updated database: the version row appended and the
recipe's default-version pointer set. -/
def handleCommitVersion (db : Db) (recipeId : String) (recipe : Recipe)
    (editPrompt : Option String) (originalRecipe : Option Recipe)
    (versionId createdAt : String) (nameCall : Except Unit String) :
    CommitResult × Db :=
  if hasRecipe db recipeId = false then (.notFound, db)
  else
    let changeset : Option (List IngredientDiff) :=
      originalRecipe.map fun o => computeChangeset o.ingredients recipe.ingredients
    let versionName : Option String :=
      match editPrompt, originalRecipe with
      | some p, some _ =>
          if p = "" then none
          else
            match nameCall with
            | .ok n => some n
            | .error _ => none
      | _, _ => none
    let row : VersionRow :=
      { id := versionId
        recipeId := recipeId
        recipe := recipe
        editPrompt := editPrompt
        name := versionName
        changeset := changeset
        createdAt := createdAt }
    let db2 : Db :=
      { recipes := db.recipes.map fun p => if p.1 = recipeId then (p.1, some versionId) else p
        versions := db.versions ++ [row] }
    (.committed versionId, db2)

/-- A concrete recipe used by witnesses and counterexamples. -/
def sampleRecipe : Recipe :=
  { title := "Pancakes"
    servings := some 4
    ingredients := [{ name := "egg", quantity := some 2 }]
    steps := ["Mix", "Fry"]
    sourceUrl := "https://example.com/pancakes"
    scrapedAt := "2024-01-01T00:00:00Z" }

/-! ### Lemmas about the changeset engine -/

lemma removedModified_eq (em om : List (String × Ingredient)) :
    ∀ acc : List IngredientDiff,
      om.foldl (fun diffs p =>
          match mapGet em p.1 with
          | none => diffs ++ [IngredientDiff.removed p.2]
          | some ed => if p.2 ≠ ed then diffs ++ [IngredientDiff.modified p.2 ed] else diffs) acc
        = acc ++ om.filterMap (fun p =>
            match mapGet em p.1 with
            | none => some (IngredientDiff.removed p.2)
            | some ed => if p.2 ≠ ed then some (IngredientDiff.modified p.2 ed) else none) := by
  induction om with
  | nil => intro acc; simp
  | cons p rest ih =>
      intro acc
      simp only [List.foldl_cons, List.filterMap_cons]
      cases h : mapGet em p.1 with
      | none => rw [ih]; simp
      | some ed =>
          by_cases hne : p.2 = ed
          · rw [ih]; simp [hne]
          · rw [ih]; simp [hne]

lemma added_eq (om em : List (String × Ingredient)) :
    ∀ acc : List IngredientDiff,
      em.foldl (fun diffs p =>
          match mapGet om p.1 with
          | none => diffs ++ [IngredientDiff.added p.2]
          | some _ => diffs) acc
        = acc ++ em.filterMap (fun p =>
            match mapGet om p.1 with
            | none => some (IngredientDiff.added p.2)
            | some _ => none) := by
  induction em with
  | nil => intro acc; simp
  | cons p rest ih =>
      intro acc
      simp only [List.foldl_cons, List.filterMap_cons]
      cases h : mapGet om p.1 with
      | none => rw [ih]; simp
      | some ed => rw [ih]

lemma mapGet_insertLast_self (m : List (String × Ingredient)) (k : String) (v : Ingredient) :
    mapGet (insertLast m k v) k = some v := by
  induction m with
  | nil => simp [insertLast, mapGet]
  | cons p rest ih =>
      by_cases h : p.1 = k
      · simp [insertLast, mapGet, h]
      · simp [insertLast, mapGet, h, ih]

lemma mapGet_insertLast_other (m : List (String × Ingredient)) (k k2 : String) (v : Ingredient)
    (hne : k2 ≠ k) : mapGet (insertLast m k v) k2 = mapGet m k2 := by
  induction m with
  | nil => simp [insertLast, mapGet, Ne.symm hne]
  | cons p rest ih =>
      cases p with | mk a b =>
      by_cases h : a = k
      · have e1 : insertLast ((a, b) :: rest) k v = (k, v) :: rest := by
          simp [insertLast, h]
        have ha : a ≠ k2 := by rw [h]; exact Ne.symm hne
        rw [e1]
        simp [mapGet, Ne.symm hne, ha]
      · have e1 : insertLast ((a, b) :: rest) k v = (a, b) :: insertLast rest k v := by
          simp [insertLast, h]
        rw [e1]
        by_cases h2 : a = k2
        · simp [mapGet, h2]
        · simp [mapGet, h2, ih]

/-- The keys of a map candidate have no duplicates. -/
def NodupKeys (m : List (String × Ingredient)) : Prop :=
  (m.map Prod.fst).Nodup

lemma mem_keys_insertLast (m : List (String × Ingredient)) (k : String) (v : Ingredient)
    (x : String) (hx : x ∈ (insertLast m k v).map Prod.fst) :
    x ∈ m.map Prod.fst ∨ x = k := by
  induction m with
  | nil =>
      simp [insertLast] at hx
      exact Or.inr hx
  | cons q rest ih =>
      by_cases h : q.1 = k
      · rw [show insertLast (q :: rest) k v = (k, v) :: rest by
            cases q with | mk a b => simp_all [insertLast]] at hx
        simp only [List.map_cons, List.mem_cons] at hx ⊢
        rcases hx with h1 | h1
        · exact Or.inr h1
        · exact Or.inl (Or.inr h1)
      · rw [show insertLast (q :: rest) k v = q :: insertLast rest k v by
            cases q with | mk a b => simp_all [insertLast]] at hx
        simp only [List.map_cons, List.mem_cons] at hx ⊢
        rcases hx with h1 | h1
        · exact Or.inl (Or.inl h1)
        · rcases ih h1 with h2 | h2
          · exact Or.inl (Or.inr h2)
          · exact Or.inr h2

lemma nodupKeys_insertLast (m : List (String × Ingredient)) (k : String) (v : Ingredient)
    (hm : NodupKeys m) : NodupKeys (insertLast m k v) := by
  induction m with
  | nil => simp [insertLast, NodupKeys]
  | cons q rest ih =>
      unfold NodupKeys at hm
      simp only [List.map_cons, List.nodup_cons] at hm
      by_cases h : q.1 = k
      · rw [show insertLast (q :: rest) k v = (k, v) :: rest by
            cases q with | mk a b => simp_all [insertLast]]
        unfold NodupKeys
        simp only [List.map_cons, List.nodup_cons]
        exact ⟨h ▸ hm.1, hm.2⟩
      · rw [show insertLast (q :: rest) k v = q :: insertLast rest k v by
            cases q with | mk a b => simp_all [insertLast]]
        unfold NodupKeys
        simp only [List.map_cons, List.nodup_cons]
        refine ⟨fun hmem => ?_, ih hm.2⟩
        rcases mem_keys_insertLast rest k v q.1 hmem with h2 | h2
        · exact hm.1 h2
        · exact h h2

lemma mapGet_of_mem (m : List (String × Ingredient)) (hm : NodupKeys m)
    (p : String × Ingredient) (hp : p ∈ m) : mapGet m p.1 = some p.2 := by
  induction m with
  | nil => simp at hp
  | cons q rest ih =>
      unfold NodupKeys at hm
      simp only [List.map_cons, List.nodup_cons] at hm
      rcases List.mem_cons.mp hp with h1 | h1
      · subst h1
        simp [mapGet]
      · have hne : q.1 ≠ p.1 := by
          intro he
          exact hm.1 (he ▸ List.mem_map_of_mem Prod.fst h1)
        cases q with | mk a b =>
        simp only [mapGet, if_neg hne]
        exact ih hm.2 h1

lemma nodupKeys_toMap_aux (l : List Ingredient) :
    ∀ acc, NodupKeys acc →
      NodupKeys (l.foldl (fun m ing => insertLast m (lowerString ing.name) ing) acc) := by
  induction l with
  | nil => intro acc h; exact h
  | cons ing rest ih =>
      intro acc h
      exact ih _ (nodupKeys_insertLast acc (lowerString ing.name) ing h)

lemma nodupKeys_toMap (l : List Ingredient) : NodupKeys (toMap l) :=
  nodupKeys_toMap_aux l [] (by simp [NodupKeys])

lemma toMap_coherent (l : List Ingredient) (p : String × Ingredient)
    (hp : p ∈ toMap l) : mapGet (toMap l) p.1 = some p.2 :=
  mapGet_of_mem (toMap l) (nodupKeys_toMap l) p hp

/-! ### Lemmas about one edit turn -/

lemma provenance_execTool (current : Recipe) (s : TurnState) (t : ToolCall)
    (h1 : s.finalRecipe.sourceUrl = current.sourceUrl)
    (h2 : s.finalRecipe.scrapedAt = current.scrapedAt) :
    (execTool current s t).finalRecipe.sourceUrl = current.sourceUrl ∧
    (execTool current s t).finalRecipe.scrapedAt = current.scrapedAt := by
  cases t <;> simp [execTool, applyMetadata, attachProvenance, h1, h2]

lemma provenance_execAction (current : Recipe) (s : TurnState) (a : TurnAction)
    (h1 : s.finalRecipe.sourceUrl = current.sourceUrl)
    (h2 : s.finalRecipe.scrapedAt = current.scrapedAt) :
    (execAction current s a).finalRecipe.sourceUrl = current.sourceUrl ∧
    (execAction current s a).finalRecipe.scrapedAt = current.scrapedAt := by
  cases a with
  | call t => exact provenance_execTool current s t h1 h2
  | timeoutFires => exact ⟨h1, h2⟩
  | modelError => exact ⟨h1, h2⟩

lemma provenance_runActions (current : Recipe) :
    ∀ (actions : List TurnAction) (s : TurnState),
      s.finalRecipe.sourceUrl = current.sourceUrl →
      s.finalRecipe.scrapedAt = current.scrapedAt →
      (runActions current s actions).finalRecipe.sourceUrl = current.sourceUrl ∧
      (runActions current s actions).finalRecipe.scrapedAt = current.scrapedAt := by
  intro actions
  induction actions with
  | nil => intro s h1 h2; exact ⟨h1, h2⟩
  | cons a rest ih =>
      intro s h1 h2
      have h := provenance_execAction current s a h1 h2
      exact ih _ h.1 h.2

/-- Every element of an event list is a progress event. -/
def allProgress (evs : List EditAgentEvent) : Prop :=
  ∀ e ∈ evs, ∃ lbl, e = EditAgentEvent.progress lbl

lemma allProgress_append_progress (evs : List EditAgentEvent) (lbl : String)
    (h : allProgress evs) : allProgress (evs ++ [.progress lbl]) := by
  intro e he
  rcases List.mem_append.mp he with h1 | h1
  · exact h e h1
  · simp only [List.mem_singleton] at h1
    exact ⟨lbl, h1⟩

lemma allProgress_execTool (current : Recipe) (s : TurnState) (t : ToolCall)
    (h : allProgress s.events) : allProgress (execTool current s t).events := by
  cases t with
  | update_ingredients ings => exact allProgress_append_progress s.events _ h
  | update_steps st => exact allProgress_append_progress s.events _ h
  | update_metadata f => exact allProgress_append_progress s.events _ h
  | ask_clarification q => exact h
  | review_recipe r => exact allProgress_append_progress s.events _ h

lemma allProgress_execAction (current : Recipe) (s : TurnState) (a : TurnAction)
    (h : allProgress s.events) : allProgress (execAction current s a).events := by
  cases a with
  | call t => exact allProgress_execTool current s t h
  | timeoutFires => exact h
  | modelError => exact h

lemma allProgress_runActions (current : Recipe) :
    ∀ (actions : List TurnAction) (s : TurnState),
      allProgress s.events → allProgress (runActions current s actions).events := by
  intro actions
  induction actions with
  | nil => intro s h; exact h
  | cons a rest ih =>
      intro s h
      exact ih _ (allProgress_execAction current s a h)

lemma agentEditRecipe_getLast (current : Recipe) (actions : List TurnAction) :
    (agentEditRecipe current actions).getLast?
      = some (classify (runActions current (initState current) actions)) :=
  List.getLast?_concat _

lemma classifyNoClarification_isTerminal (s : TurnState) :
    isTerminal (classifyNoClarification s) = true := by
  unfold classifyNoClarification
  by_cases h : s.abortReason = some AbortReason.timeout
  · simp [h, isTerminal]
  · by_cases h2 : s.recipeMutated = false <;> simp [h, h2, isTerminal]

lemma classify_isTerminal (s : TurnState) : isTerminal (classify s) = true := by
  unfold classify
  cases s.clarificationQuestion with
  | none => exact classifyNoClarification_isTerminal s
  | some q =>
      by_cases he : q = ""
      · simp only [if_pos he]
        exact classifyNoClarification_isTerminal s
      · simp [he, isTerminal]

lemma classify_of_truthy (s : TurnState) (q : String)
    (hq : s.clarificationQuestion = some q) (hne : q ≠ "") :
    classify s = .clarification q := by
  unfold classify
  rw [hq]
  simp [hne]

lemma classify_not_truthy (s : TurnState)
    (h : questionTruthy s.clarificationQuestion = false) :
    classify s = classifyNoClarification s := by
  unfold classify
  cases hq : s.clarificationQuestion with
  | none => rfl
  | some q =>
      rw [hq] at h
      unfold questionTruthy at h
      have he : q = "" := by simpa using h
      show (if q = "" then classifyNoClarification s else EditAgentEvent.clarification q)
          = classifyNoClarification s
      rw [if_pos he]

lemma classifyNoClarification_result (s : TurnState) (r : Recipe)
    (h : classifyNoClarification s = .result r) : r = s.finalRecipe := by
  unfold classifyNoClarification at h
  by_cases ht : s.abortReason = some AbortReason.timeout
  · rw [if_pos ht] at h; cases h
  · rw [if_neg ht] at h
    by_cases hm : s.recipeMutated = false
    · rw [if_pos hm] at h; cases h
    · rw [if_neg hm] at h
      injection h with hr
      exact hr.symm

lemma classify_result_eq (s : TurnState) (r : Recipe)
    (h : classify s = .result r) : r = s.finalRecipe := by
  unfold classify at h
  cases hq : s.clarificationQuestion with
  | none =>
      rw [hq] at h
      exact classifyNoClarification_result s r h
  | some q =>
      rw [hq] at h
      have h2 : (if q = "" then classifyNoClarification s else EditAgentEvent.clarification q)
          = EditAgentEvent.result r := h
      by_cases he : q = ""
      · rw [if_pos he] at h2
        exact classifyNoClarification_result s r h2
      · rw [if_neg he] at h2
        cases h2

/-! ### Claim theorems -/

/-- C4: `computeChangeset` emits a `removed` diff for every lower-cased name
in the original-side map missing from the edited-side map, a `modified`
diff for names on both sides with structurally different ingredients, and an
`added` diff for names only on the edited side — the sides keyed by
lower-cased name with later duplicates overwriting earlier entries — with
removed/modified diffs in original-map iteration order followed by added
diffs in edited-map iteration order; together with the specification's three
concrete examples. -/
theorem computeChangeset_matches_description :
    (∀ original edited, computeChangeset original edited = changesetDescribed original edited)
    ∧ computeChangeset [{ name := "egg" }] [] = [IngredientDiff.removed { name := "egg" }]
    ∧ computeChangeset [] [{ name := "egg" }] = [IngredientDiff.added { name := "egg" }]
    ∧ computeChangeset [{ name := "Egg", quantity := some 2 }] [{ name := "egg", quantity := some 3 }]
        = [IngredientDiff.modified { name := "Egg", quantity := some 2 }
            { name := "egg", quantity := some 3 }] := by
  refine ⟨fun original edited => ?_, by decide, by decide, by decide⟩
  simp only [computeChangeset, changesetDescribed]
  rw [added_eq, removedModified_eq]
  simp

/-- C10: diffing any ingredient list against itself — including lists whose
lower-cased names collide — yields the empty changeset. -/
theorem computeChangeset_self_empty : ∀ l, computeChangeset l l = [] := by
  intro l
  simp only [computeChangeset]
  rw [added_eq, removedModified_eq]
  have h1 : (toMap l).filterMap (fun p =>
      match mapGet (toMap l) p.1 with
      | none => some (IngredientDiff.removed p.2)
      | some ed => if p.2 ≠ ed then some (IngredientDiff.modified p.2 ed) else none) = [] := by
    rw [List.filterMap_eq_nil_iff]
    intro p hp
    rw [toMap_coherent l p hp]
    simp
  have h2 : (toMap l).filterMap (fun p =>
      match mapGet (toMap l) p.1 with
      | none => some (IngredientDiff.added p.2)
      | some _ => none) = [] := by
    rw [List.filterMap_eq_nil_iff]
    intro p hp
    rw [toMap_coherent l p hp]
  rw [h1, h2]
  simp

/-- C1: whatever sequence of tool invocations the model performed and
whatever values it supplied, a terminating `result` event carries exactly
the input recipe's `sourceUrl` and `scrapedAt`. -/
theorem result_preserves_provenance (current : Recipe) (actions : List TurnAction)
    (r : Recipe) (h : EditAgentEvent.result r ∈ agentEditRecipe current actions) :
    r.sourceUrl = current.sourceUrl ∧ r.scrapedAt = current.scrapedAt := by
  simp only [agentEditRecipe] at h
  rcases List.mem_append.mp h with h1 | h1
  · have hall := allProgress_runActions current actions (initState current)
      (by intro e he; simp [initState] at he)
    rcases hall _ h1 with ⟨lbl, he⟩
    cases he
  · simp only [List.mem_singleton] at h1
    have hprov := provenance_runActions current actions (initState current) rfl rfl
    have hr := classify_result_eq (runActions current (initState current) actions) r h1.symm
    rw [hr]
    exact hprov

/-- Witness for C1: a concrete turn whose result keeps the provenance. -/
theorem result_preserves_provenance_witness :
    EditAgentEvent.result { sampleRecipe with steps := ["Stir"] } ∈
        agentEditRecipe sampleRecipe [.call (.update_steps ["Stir"])]
    ∧ ({ sampleRecipe with steps := ["Stir"] } : Recipe).sourceUrl = sampleRecipe.sourceUrl
    ∧ ({ sampleRecipe with steps := ["Stir"] } : Recipe).scrapedAt = sampleRecipe.scrapedAt :=
  ⟨by decide,
   result_preserves_provenance sampleRecipe [.call (.update_steps ["Stir"])]
     { sampleRecipe with steps := ["Stir"] } (by decide)⟩

/-- Counterexample for C5 as stated: a turn that only invokes
`ask_clarification` with the empty question string terminates with the
rephrase `error` event — the JS truthiness check at `agent.ts` line 167
treats the recorded `""` as no question — not with `{clarification, ""}`. -/
theorem clarification_only_turn_counterexample :
    agentEditRecipe sampleRecipe [.call (.ask_clarification "")]
        = [.error unproductiveMessage]
    ∧ ¬(agentEditRecipe sampleRecipe [.call (.ask_clarification "")]
        = [.clarification ""]) :=
  ⟨by decide, by decide⟩

/-- C5 (amended): a turn whose only tool invocation is `ask_clarification q`
with a non-empty `q` emits no progress event, leaves the draft unmutated,
and terminates with a clarification event carrying exactly `q`; with the
empty question the turn instead terminates with the rephrase error, still
with no progress event and no mutation. -/
theorem clarification_only_turn (current : Recipe) (q : String) (hq : q ≠ "") :
    agentEditRecipe current [.call (.ask_clarification q)] = [.clarification q]
    ∧ (runActions current (initState current) [.call (.ask_clarification q)]).recipeMutated
        = false
    ∧ (runActions current (initState current) [.call (.ask_clarification q)]).finalRecipe
        = current
    ∧ agentEditRecipe current [.call (.ask_clarification "")]
        = [.error unproductiveMessage] := by
  refine ⟨?_, rfl, rfl, rfl⟩
  have hcls : classify (runActions current (initState current) [.call (.ask_clarification q)])
      = .clarification q :=
    classify_of_truthy _ q rfl hq
  show (runActions current (initState current) [.call (.ask_clarification q)]).events
      ++ [classify (runActions current (initState current) [.call (.ask_clarification q)])]
    = [.clarification q]
  rw [hcls]
  rfl

/-- Witness for C5: a concrete non-empty question. -/
theorem clarification_only_turn_witness :
    ("Which?" : String) ≠ ""
    ∧ agentEditRecipe sampleRecipe [.call (.ask_clarification "Which?")]
        = [.clarification "Which?"] :=
  ⟨by decide, (clarification_only_turn sampleRecipe "Which?" (by decide)).1⟩

/-- C7: `update_metadata` patches exactly the supplied (defined) fields and
leaves everything else — including ingredients, steps and provenance —
untouched, while `update_ingredients` fully replaces the ingredient list and
leaves every non-ingredient field unchanged. -/
theorem metadata_merges_ingredients_replace (current : Recipe) (s : TurnState)
    (f : MetadataFields) (ings : List Ingredient) :
    (execTool current s (.update_metadata f)).finalRecipe.ingredients
        = s.finalRecipe.ingredients
    ∧ (execTool current s (.update_metadata f)).finalRecipe.steps = s.finalRecipe.steps
    ∧ (execTool current s (.update_metadata f)).finalRecipe.sourceUrl = s.finalRecipe.sourceUrl
    ∧ (execTool current s (.update_metadata f)).finalRecipe.scrapedAt = s.finalRecipe.scrapedAt
    ∧ (f.title = none →
        (execTool current s (.update_metadata f)).finalRecipe.title = s.finalRecipe.title)
    ∧ (∀ v, f.title = some v →
        (execTool current s (.update_metadata f)).finalRecipe.title = v)
    ∧ (f.servings = none →
        (execTool current s (.update_metadata f)).finalRecipe.servings = s.finalRecipe.servings)
    ∧ (∀ v, f.servings = some v →
        (execTool current s (.update_metadata f)).finalRecipe.servings = some v)
    ∧ (f.prepTime = none →
        (execTool current s (.update_metadata f)).finalRecipe.prepTime = s.finalRecipe.prepTime)
    ∧ (∀ v, f.prepTime = some v →
        (execTool current s (.update_metadata f)).finalRecipe.prepTime = some v)
    ∧ (f.cookTime = none →
        (execTool current s (.update_metadata f)).finalRecipe.cookTime = s.finalRecipe.cookTime)
    ∧ (∀ v, f.cookTime = some v →
        (execTool current s (.update_metadata f)).finalRecipe.cookTime = some v)
    ∧ (f.cuisine = none →
        (execTool current s (.update_metadata f)).finalRecipe.cuisine = s.finalRecipe.cuisine)
    ∧ (∀ v, f.cuisine = some v →
        (execTool current s (.update_metadata f)).finalRecipe.cuisine = some v)
    ∧ (f.category = none →
        (execTool current s (.update_metadata f)).finalRecipe.category = s.finalRecipe.category)
    ∧ (∀ v, f.category = some v →
        (execTool current s (.update_metadata f)).finalRecipe.category = some v)
    ∧ (f.tags = none →
        (execTool current s (.update_metadata f)).finalRecipe.tags = s.finalRecipe.tags)
    ∧ (∀ v, f.tags = some v →
        (execTool current s (.update_metadata f)).finalRecipe.tags = some v)
    ∧ (execTool current s (.update_ingredients ings)).finalRecipe.ingredients = ings
    ∧ (execTool current s (.update_ingredients ings)).finalRecipe.title = s.finalRecipe.title
    ∧ (execTool current s (.update_ingredients ings)).finalRecipe.servings
        = s.finalRecipe.servings
    ∧ (execTool current s (.update_ingredients ings)).finalRecipe.prepTime
        = s.finalRecipe.prepTime
    ∧ (execTool current s (.update_ingredients ings)).finalRecipe.cookTime
        = s.finalRecipe.cookTime
    ∧ (execTool current s (.update_ingredients ings)).finalRecipe.steps = s.finalRecipe.steps
    ∧ (execTool current s (.update_ingredients ings)).finalRecipe.tags = s.finalRecipe.tags
    ∧ (execTool current s (.update_ingredients ings)).finalRecipe.cuisine
        = s.finalRecipe.cuisine
    ∧ (execTool current s (.update_ingredients ings)).finalRecipe.category
        = s.finalRecipe.category
    ∧ (execTool current s (.update_ingredients ings)).finalRecipe.sourceUrl
        = s.finalRecipe.sourceUrl
    ∧ (execTool current s (.update_ingredients ings)).finalRecipe.scrapedAt
        = s.finalRecipe.scrapedAt := by
  refine ⟨rfl, rfl, rfl, rfl, ?_, ?_, ?_, ?_, ?_, ?_, ?_, ?_, ?_, ?_, ?_, ?_, ?_, ?_,
    rfl, rfl, rfl, rfl, rfl, rfl, rfl, rfl, rfl, rfl, rfl⟩ <;>
  · intros
    simp [execTool, applyMetadata, orKeep, *]

/-- Witness for C7: `update_metadata {title := "New"}` on a draft with
existing servings sets the title and leaves the servings unchanged. -/
theorem metadata_merges_ingredients_replace_witness :
    (execTool sampleRecipe (initState sampleRecipe)
        (.update_metadata { title := some "New" })).finalRecipe.title = "New"
    ∧ (execTool sampleRecipe (initState sampleRecipe)
        (.update_metadata { title := some "New" })).finalRecipe.servings
          = sampleRecipe.servings :=
  ⟨(metadata_merges_ingredients_replace sampleRecipe (initState sampleRecipe)
      { title := some "New" } []).2.2.2.2.2.1 "New" rfl,
   (metadata_merges_ingredients_replace sampleRecipe (initState sampleRecipe)
      { title := some "New" } []).2.2.2.2.2.2.1 rfl⟩

/-- C6 (amended): each of the four mutating tools (`update_ingredients`,
`update_steps`, `update_metadata`, `review_recipe`) mutates the draft —
setting the mutation flag — and emits exactly one progress event with its
label before returning; `ask_clarification`, however, emits no progress
event and leaves the draft and mutation flag untouched, only recording the
question. -/
theorem tool_effects_and_progress (current : Recipe) (s : TurnState) :
    (∀ ings, (execTool current s (.update_ingredients ings)).events
          = s.events ++ [.progress "Updating ingredients..."]
        ∧ (execTool current s (.update_ingredients ings)).recipeMutated = true)
    ∧ (∀ st, (execTool current s (.update_steps st)).events
          = s.events ++ [.progress "Updating steps..."]
        ∧ (execTool current s (.update_steps st)).recipeMutated = true)
    ∧ (∀ f, (execTool current s (.update_metadata f)).events
          = s.events ++ [.progress "Updating recipe details..."]
        ∧ (execTool current s (.update_metadata f)).recipeMutated = true)
    ∧ (∀ r, (execTool current s (.review_recipe r)).events
          = s.events ++ [.progress "Reviewing consistency..."]
        ∧ (execTool current s (.review_recipe r)).recipeMutated = true)
    ∧ (∀ q, (execTool current s (.ask_clarification q)).events = s.events
        ∧ (execTool current s (.ask_clarification q)).recipeMutated = s.recipeMutated
        ∧ (execTool current s (.ask_clarification q)).finalRecipe = s.finalRecipe
        ∧ (execTool current s (.ask_clarification q)).clarificationQuestion = some q) :=
  ⟨fun _ => ⟨rfl, rfl⟩, fun _ => ⟨rfl, rfl⟩, fun _ => ⟨rfl, rfl⟩, fun _ => ⟨rfl, rfl⟩,
   fun _ => ⟨rfl, rfl, rfl, rfl⟩⟩

/-- Counterexample for C6 as stated: `ask_clarification` is in the registry,
yet executing it emits zero progress events (not exactly one) and does not
mutate the draft. -/
theorem ask_clarification_counterexample :
    (execTool sampleRecipe (initState sampleRecipe)
        (.ask_clarification "Which part?")).events = []
    ∧ (execTool sampleRecipe (initState sampleRecipe)
        (.ask_clarification "Which part?")).recipeMutated = false
    ∧ ¬((execTool sampleRecipe (initState sampleRecipe)
        (.ask_clarification "Which part?")).events.length = 1) :=
  ⟨rfl, rfl, by decide⟩

/-- Counterexample for C2 as stated: a turn that records the empty
clarification question ends with the rephrase error, not with
`{clarification, ""}` — the JS truthiness guard of `agent.ts` line 167 lets
a recorded empty question fall through to the later branches. -/
theorem terminal_event_precedence_counterexample :
    (runActions sampleRecipe (initState sampleRecipe)
        [.call (.ask_clarification "")]).clarificationQuestion = some ""
    ∧ (agentEditRecipe sampleRecipe [.call (.ask_clarification "")]).getLast?
        = some (.error unproductiveMessage)
    ∧ ¬((agentEditRecipe sampleRecipe [.call (.ask_clarification "")]).getLast?
        = some (.clarification "")) :=
  ⟨rfl, by decide, by decide⟩

/-- C2 (amended): the terminal event is decided by exact precedence — a
recorded non-empty clarification question wins (a recorded empty question is
falsy in the JS truthiness guard and counts as no question); else a timeout
abort yields the timeout error; else a turn with no mutating tool call
yields the rephrase error; otherwise the mutated draft is emitted as a
result (in particular after a step cap or model error following at least one
successful mutation). -/
theorem terminal_event_precedence (current : Recipe) (actions : List TurnAction) :
    (∀ q, (runActions current (initState current) actions).clarificationQuestion = some q →
        q ≠ "" →
        (agentEditRecipe current actions).getLast? = some (.clarification q))
    ∧ (questionTruthy
          (runActions current (initState current) actions).clarificationQuestion = false →
        (runActions current (initState current) actions).abortReason
            = some AbortReason.timeout →
        (agentEditRecipe current actions).getLast? = some (.error timeoutMessage))
    ∧ (questionTruthy
          (runActions current (initState current) actions).clarificationQuestion = false →
        (runActions current (initState current) actions).abortReason
            ≠ some AbortReason.timeout →
        (runActions current (initState current) actions).recipeMutated = false →
        (agentEditRecipe current actions).getLast? = some (.error unproductiveMessage))
    ∧ (questionTruthy
          (runActions current (initState current) actions).clarificationQuestion = false →
        (runActions current (initState current) actions).abortReason
            ≠ some AbortReason.timeout →
        (runActions current (initState current) actions).recipeMutated = true →
        (agentEditRecipe current actions).getLast?
          = some (.result (runActions current (initState current) actions).finalRecipe)) := by
  have hlast := agentEditRecipe_getLast current actions
  refine ⟨?_, ?_, ?_, ?_⟩
  · intro q hq hne
    rw [hlast, classify_of_truthy _ q hq hne]
  · intro hf ht
    rw [hlast, classify_not_truthy _ hf]
    unfold classifyNoClarification
    simp [ht]
  · intro hf ht hm
    rw [hlast, classify_not_truthy _ hf]
    unfold classifyNoClarification
    simp [ht, hm]
  · intro hf ht hm
    rw [hlast, classify_not_truthy _ hf]
    unfold classifyNoClarification
    simp [ht, hm]

/-- Witness for C2: a concrete turn for each discharged hypothesis — here a
mutation followed by a model error still terminates with a result. -/
theorem terminal_event_precedence_witness :
    (agentEditRecipe sampleRecipe [.call (.update_steps ["Stir"]), .modelError]).getLast?
      = some (.result { sampleRecipe with steps := ["Stir"] }) :=
  (terminal_event_precedence sampleRecipe
    [.call (.update_steps ["Stir"]), .modelError]).2.2.2 rfl (by decide) rfl

/-- Counterexample for C3 as stated: a turn with one successful
`update_ingredients` call and then the timeout firing terminates with the
timeout `error` event, not a `result` event. -/
theorem timeout_after_mutation_counterexample :
    (agentEditRecipe sampleRecipe
        [.call (.update_ingredients [{ name := "butter", quantity := some 1 }]),
          .timeoutFires]).getLast?
      = some (.error timeoutMessage)
    ∧ (agentEditRecipe sampleRecipe
        [.call (.update_ingredients [{ name := "butter", quantity := some 1 }]),
          .timeoutFires]).getLast?.map isResult = some false :=
  ⟨by decide, by decide⟩

/-- C3 (amended): if the 10-second timeout fires mid-turn after one
successful `update_ingredients` call mutated the draft, the turn terminates
with the timeout `error` event, not a `result`: the classifier gives a
timeout abort unconditional precedence over "draft was mutated" (only a
recorded clarification question outranks it). -/
theorem timeout_after_mutation_errors (current : Recipe) (ings : List Ingredient) :
    (agentEditRecipe current [.call (.update_ingredients ings), .timeoutFires]).getLast?
      = some (.error timeoutMessage) := by
  rw [agentEditRecipe_getLast]
  rfl

/-- C8: every turn resolves to an event stream made of zero or more progress
events followed by exactly one terminal event (clarification, result or
error), with nothing after it — the embedding is total, reflecting that all
model failures are swallowed at the turn boundary (`agent.ts` lines
161-163). -/
theorem turn_emits_one_terminal (current : Recipe) (actions : List TurnAction) :
    ∃ ps t, agentEditRecipe current actions = ps ++ [t]
      ∧ allProgress ps
      ∧ isTerminal t = true
      ∧ ((agentEditRecipe current actions).filter isTerminal).length = 1 := by
  have hall := allProgress_runActions current actions (initState current)
    (by intro e he; simp [initState] at he)
  refine ⟨(runActions current (initState current) actions).events,
    classify (runActions current (initState current) actions), rfl, hall, classify_isTerminal _, ?_⟩
  have h1 : ((runActions current (initState current) actions).events.filter isTerminal) = [] := by
    rw [List.filter_eq_nil_iff]
    intro e he
    rcases hall e he with ⟨lbl, hlbl⟩
    rw [hlbl]
    simp [isTerminal]
  simp only [agentEditRecipe, List.filter_append, h1, List.nil_append]
  rw [List.filter_singleton]
  simp [classify_isTerminal]

lemma find?_after_update (l : List (String × Option String)) (id vid : String)
    (h : l.any (fun p => p.1 = id) = true) :
    (l.map fun p => if p.1 = id then (p.1, some vid) else p).find? (fun p => p.1 = id)
      = some (id, some vid) := by
  induction l with
  | nil => simp at h
  | cons q rest ih =>
      by_cases hq : q.1 = id
      · simp [List.find?, hq]
      · simp only [List.any_cons, Bool.or_eq_true, decide_eq_true_eq] at h
        rcases h with h | h
        · exact absurd h hq
        · simp only [List.map_cons, if_neg hq, List.find?]
          rw [show (decide (q.1 = id)) = false by simp [hq]]
          exact ih h

/-- A concrete database used by the C9 witness. -/
def sampleDb : Db :=
  { recipes := [("r1", none)], versions := [] }

/-- C9: when committing a version with both an `editPrompt` and an
`originalRecipe` supplied, a failure of the `generateVersionName` call never
fails the commit — the version row is still inserted (with a `none` name and
the computed changeset) and the recipe's default-version pointer is still
updated to the new version. -/
theorem commit_survives_naming_failure (db : Db) (recipeId : String) (recipe : Recipe)
    (p : String) (o : Recipe) (versionId createdAt : String)
    (h : hasRecipe db recipeId = true) :
    (handleCommitVersion db recipeId recipe (some p) (some o) versionId createdAt
        (.error ())).1 = CommitResult.committed versionId
    ∧ (handleCommitVersion db recipeId recipe (some p) (some o) versionId createdAt
        (.error ())).2.versions
      = db.versions ++ [{ id := versionId, recipeId := recipeId, recipe := recipe,
                          editPrompt := some p, name := none,
                          changeset := some (computeChangeset o.ingredients recipe.ingredients),
                          createdAt := createdAt }]
    ∧ defaultVersionOf
        (handleCommitVersion db recipeId recipe (some p) (some o) versionId createdAt
          (.error ())).2 recipeId
      = some (some versionId) := by
  have hc : (hasRecipe db recipeId = false) = False := by simp [h]
  refine ⟨?_, ?_, ?_⟩
  · simp only [handleCommitVersion, hc, if_false]
  · simp only [handleCommitVersion, hc, if_false]
    by_cases hp : p = "" <;> simp [hp]
  · simp only [handleCommitVersion, hc, if_false, defaultVersionOf]
    rw [find?_after_update db.recipes recipeId versionId h]
    rfl

/-- Witness for C9: committing on a concrete one-recipe database with a
failing naming call still succeeds, inserts the null-named row and moves the
default pointer. -/
theorem commit_survives_naming_failure_witness :
    hasRecipe sampleDb "r1" = true
    ∧ (handleCommitVersion sampleDb "r1" sampleRecipe (some "make it vegan")
        (some sampleRecipe) "v1" "2024-01-02T00:00:00Z" (.error ())).1
      = CommitResult.committed "v1"
    ∧ defaultVersionOf
        (handleCommitVersion sampleDb "r1" sampleRecipe (some "make it vegan")
          (some sampleRecipe) "v1" "2024-01-02T00:00:00Z" (.error ())).2 "r1"
      = some (some "v1") := by
  have h := commit_survives_naming_failure sampleDb "r1" sampleRecipe "make it vegan"
    sampleRecipe "v1" "2024-01-02T00:00:00Z" (by decide)
  exact ⟨by decide, h.1, h.2.2⟩

end RecipeApp
